import Mathlib

/-!
Path resolution of the `paths` package: a shallow embedding of `paths/paths.go`.

* A Go `string` is modelled by a Lean `String` (a sequence of Unicode code
  points, i.e. a Go string holding valid UTF-8).  Go indexes and slices
  strings by *bytes*, so `len` and `path[:2]` go through the UTF-8 encoding
  (`goBytes`).
* A run-time panic is modelled by `Except.error`; the three ways the package
  can abort are the constructors of `Fatal`.
* The package-level variables `Home` and `XDGConfigHome` are the fields of
  `Vars`, passed explicitly; `Recalculate` returns the new `Vars`.
* What the operating system answers is passed explicitly as well: `Env`
  (`runtime.GOOS`, `os.Getenv`) for `findHome` and `Recalculate`, and `Sys`
  (`os.Getwd`, `os.Stat`) for the path functions.
* The functions of the Go standard library that the package calls
  (`strings.TrimSpace`, `strings.Replace`, `filepath.IsAbs`, `filepath.Clean`,
  `filepath.Join`) are modelled for a Unix-like platform, where
  `os.PathSeparator` is `/`.
-/

namespace Paths

/-! ## Go strings -/

/-- The UTF-8 encoding of one code point, as a list of byte values. -/
def utf8Encode (c : Char) : List Nat :=
  let v := c.toNat
  if v < 0x80 then [v]
  else if v < 0x800 then [0xC0 + v / 0x40, 0x80 + v % 0x40]
  else if v < 0x10000 then [0xE0 + v / 0x1000, 0x80 + (v / 0x40) % 0x40, 0x80 + v % 0x40]
  else [0xF0 + v / 0x40000, 0x80 + (v / 0x1000) % 0x40, 0x80 + (v / 0x40) % 0x40,
        0x80 + v % 0x40]

/-- The bytes of a Go string. -/
def goBytes (s : String) : List Nat :=
  s.data.flatMap utf8Encode

/-- Go `len(s)`: the number of bytes of `s`. -/
def len (s : String) : Nat :=
  (goBytes s).length

/-- Go `unicode.IsSpace`: the code points with the Unicode White_Space property. -/
def isSpace (c : Char) : Bool :=
  let v := c.toNat
  (9 ≤ v && v ≤ 13) || v = 0x20 || v = 0x85 || v = 0xA0 || v = 0x1680 ||
  (0x2000 ≤ v && v ≤ 0x200A) || v = 0x2028 || v = 0x2029 || v = 0x202F ||
  v = 0x205F || v = 0x3000

/-- Drop the longest suffix of `l` whose elements all satisfy `p`. -/
def dropTrailing (p : Char → Bool) : List Char → List Char
  | [] => []
  | c :: cs =>
    match dropTrailing p cs with
    | [] => if p c then [] else [c]
    | r => c :: r

/-- Go `strings.TrimSpace`: `s` without leading and trailing white space. -/
def TrimSpace (s : String) : String :=
  ⟨dropTrailing isSpace (s.data.dropWhile isSpace)⟩

/-- Replace the first occurrence of the non-empty `old` in `s` by `new`. -/
def replaceFirst (old new : List Char) : List Char → List Char
  | [] => []
  | c :: cs =>
    if old.isPrefixOf (c :: cs) then new ++ (c :: cs).drop old.length
    else c :: replaceFirst old new cs

/-- Go `strings.Replace(s, old, new, 1)` for a non-empty `old`. -/
def Replace1 (s old new : String) : String :=
  ⟨replaceFirst old.data new.data s.data⟩

/-! ## `path/filepath` on Unix -/

/-- Go `filepath.IsAbs` on Unix: the path begins with a slash. -/
def IsAbs (path : String) : Bool :=
  "/".data.isPrefixOf path.data

/-- The elements of a path: the pieces between slashes. -/
def splitSlash : List Char → List (List Char)
  | [] => [[]]
  | c :: cs =>
    if c = '/' then [] :: splitSlash cs
    else
      match splitSlash cs with
      | [] => [[c]]
      | e :: es => (c :: e) :: es

/-- The backtracking step of `filepath.Clean` at a `..` element: with `w`
bytes written, go back one byte, then back to the last separator, never
below `dotdot`. Returns the new `w`. -/
def backtrack (buf : List Char) (dotdot : Nat) : Nat → Nat
  | 0 => 0
  | w + 1 => if dotdot < w + 1 ∧ buf.get? (w + 1) ≠ some '/' then backtrack buf dotdot w else w + 1

/-- The main loop of `filepath.Clean`, one path element per step. `buf` is
the output written so far and `dotdot` the index where `..` must stop. -/
def cleanLoop (rooted : Bool) : List (List Char) → List Char → Nat → List Char
  | [], buf, _ => buf
  | e :: es, buf, dotdot =>
    if e = [] then cleanLoop rooted es buf dotdot
    else if e = ['.'] then cleanLoop rooted es buf dotdot
    else if e = ['.', '.'] then
      if dotdot < buf.length then
        cleanLoop rooted es (buf.take (backtrack buf dotdot (buf.length - 1))) dotdot
      else if !rooted then
        let buf1 := if 0 < buf.length then buf ++ ['/'] else buf
        cleanLoop rooted es (buf1 ++ ['.', '.']) (buf1.length + 2)
      else cleanLoop rooted es buf dotdot
    else
      let buf1 :=
        if (rooted && buf.length != 1) || (!rooted && buf.length != 0) then buf ++ ['/']
        else buf
      cleanLoop rooted es (buf1 ++ e) dotdot

/-- Go `filepath.Clean` on Unix. -/
def Clean (path : String) : String :=
  if path.data = [] then "."
  else
    let rooted := IsAbs path
    let out :=
      if rooted then cleanLoop true (splitSlash (path.data.drop 1)) ['/'] 1
      else cleanLoop false (splitSlash path.data) [] 0
    if out = [] then "." else ⟨out⟩

/-- Go `filepath.Join` of two elements on Unix: empty elements are ignored and
the result is cleaned. -/
def Join (a b : String) : String :=
  if a ≠ "" then Clean (a ++ "/" ++ b)
  else if b ≠ "" then Clean b
  else ""

/-! ## The package -/

/-- The ways a call into the package can abort the process. -/
inductive Fatal where
  /-- The panic of `Recalculate` with `errHomeNotFound`. -/
  | errHomeNotFound
  /-- The panic of `makeAbsolute` with the error of `os.Getwd`. -/
  | getwdFailed
  /-- The run-time panic of the slice expression `path[:2]` in `expandHome`. -/
  | sliceOutOfRange
  deriving DecidableEq, Repr

/-- The default name of the config file. -/
def File : String := ".exercism.json"

/-- The default name of the exercises directory. -/
def DirExercises : String := "exercism"

/-- The package-level variables. -/
structure Vars where
  /-- The home directory. -/
  Home : String
  /-- The value of `$XDG_CONFIG_HOME`. -/
  XDGConfigHome : String
  deriving DecidableEq, Repr

/-- What `os.Stat` returns on success, reduced to what `IsDir` reads. -/
structure FileInfo where
  /-- The answer of `fi.IsDir()`. -/
  IsDir : Bool
  deriving DecidableEq, Repr

/-- The operating system as seen by the path functions. -/
structure Sys where
  /-- The answer of `os.Getwd()`, `none` when it returns an error. -/
  Getwd : Option String
  /-- The answer of `os.Stat(path)`, `none` when it returns an error. -/
  Stat : String → Option FileInfo

/-- The process environment as seen by `findHome` and `Recalculate`. -/
structure Env where
  /-- The constant `runtime.GOOS`. -/
  GOOS : String
  /-- The answer of `os.Getenv(name)`, the empty string for an unset variable. -/
  Getenv : String → String

/-- The function `IsDir` determines whether the given path is a valid directory path. -/
def IsDir (sys : Sys) (path : String) : Bool :=
  match sys.Stat path with
  | none => false
  | some fi => fi.IsDir

/-- The function `expandHome`: the tilde is expanded by `strings.Replace`; the slice `path[:2]` panics on fewer than two bytes. -/
def expandHome (v : Vars) (path : String) : Except Fatal String :=
  if len path < 2 then .error .sliceOutOfRange
  else if (goBytes path).take 2 = goBytes ("~" ++ "/") then .ok (Replace1 path "~" v.Home)
  else .ok path

/-- The function `makeAbsolute`: a relative path is joined onto the working directory. -/
def makeAbsolute (sys : Sys) (path : String) : Except Fatal String :=
  if !IsAbs path then
    match sys.Getwd with
    | none => .error .getwdFailed
    | some wd => .ok (Join wd path)
  else .ok path

/-- The function `expandPath`: trim, expand the tilde, make absolute. -/
def expandPath (sys : Sys) (v : Vars) (path : String) : Except Fatal String :=
  match expandHome v (TrimSpace path) with
  | .error e => .error e
  | .ok p => makeAbsolute sys p

/-- The function `Config` returns the config path for the given input. -/
def Config (sys : Sys) (v : Vars) (path : String) : Except Fatal String :=
  if path = "" then
    if v.XDGConfigHome = "" then .ok (Join v.Home File)
    else .ok (Join v.XDGConfigHome File)
  else
    match expandPath sys v path with
    | .error e => .error e
    | .ok expandedPath =>
      if IsDir sys path then .ok (Join expandedPath File) else .ok expandedPath

/-- The function `Exercises` returns the exercises path for the given input. -/
def Exercises (sys : Sys) (v : Vars) (path : String) : Except Fatal String :=
  if path = "" then .ok (Join v.Home DirExercises)
  else expandPath sys v path

/-- The function `findHome`: the home directory named by the environment, or
`errHomeNotFound`. -/
def findHome (env : Env) : Except Fatal String :=
  let dir :=
    if env.GOOS = "windows" then
      let dir := env.Getenv "USERPROFILE"
      if dir = "" then env.Getenv "HOMEDRIVE" ++ env.Getenv "HOMEPATH" else dir
    else env.Getenv "HOME"
  if dir = "" then .error .errHomeNotFound else .ok dir

/-- The function `Recalculate` sets the package variables; it panics when `findHome`
returns an error. -/
def Recalculate (env : Env) (v : Vars) : Except Fatal Vars :=
  if v.Home = "" then
    match findHome env with
    | .error e => .error e
    | .ok home => .ok { Home := home, XDGConfigHome := env.Getenv "XDG_CONFIG_HOME" }
  else .ok { Home := v.Home, XDGConfigHome := env.Getenv "XDG_CONFIG_HOME" }

/-! ## A concrete machine -/

/-- A file system given by its list of directories (absolute, clean paths):
`os.Stat` resolves a relative path against the working directory `wd`. -/
def statIn (dirs : List String) (wd : String) (path : String) : Option FileInfo :=
  if path = "" then none
  else if (if IsAbs path then Clean path else Join wd path) ∈ dirs then some ⟨true⟩
  else none

/-- A machine whose directories are `/`, `/home`, `/home/alice`,
`/home/alice/work` and `/tmp`, with the process running in `/tmp`. -/
def aliceSys : Sys where
  Getwd := some "/tmp"
  Stat := statIn ["/", "/home", "/home/alice", "/home/alice/work", "/tmp"] "/tmp"

/-- The same machine without the directory `/home/alice/work`. -/
def aliceSysNoWork : Sys where
  Getwd := some "/tmp"
  Stat := statIn ["/", "/home", "/home/alice", "/tmp"] "/tmp"

/-- The package variables of a process of user alice. -/
def aliceVars : Vars where
  Home := "/home/alice"
  XDGConfigHome := ""

/-- The environment of a Unix process of user alice. -/
def aliceEnv : Env where
  GOOS := "linux"
  Getenv := fun name => if name = "HOME" then "/home/alice" else ""

/-- The environment of a Windows process without `USERPROFILE`. -/
def winEnv : Env where
  GOOS := "windows"
  Getenv := fun name =>
    if name = "HOMEDRIVE" then "C:"
    else if name = "HOMEPATH" then "\\Users\\alice"
    else if name = "XDG_CONFIG_HOME" then "D:\\cfg"
    else ""

/-- The home directory the environment names, in the words of the claim: on
Windows `USERPROFILE`, else `HOMEDRIVE` followed by `HOMEPATH`; elsewhere
`HOME`. -/
def homeOfEnv (env : Env) : String :=
  if env.GOOS = "windows" then
    if env.Getenv "USERPROFILE" ≠ "" then env.Getenv "USERPROFILE"
    else env.Getenv "HOMEDRIVE" ++ env.Getenv "HOMEPATH"
  else env.Getenv "HOME"

/-! ## Lemmas on Go strings -/

theorem utf8Encode_cases (c : Char) :
    (c.toNat < 128 ∧ utf8Encode c = [c.toNat]) ∨
    (∃ b b1 bs, utf8Encode c = b :: b1 :: bs ∧ 192 ≤ b) := by
  unfold utf8Encode
  by_cases h1 : c.toNat < 0x80
  · left; simp [h1]
  · right
    by_cases h2 : c.toNat < 0x800
    · exact ⟨0xC0 + c.toNat / 0x40, _, _, by rw [if_neg h1, if_pos h2], by omega⟩
    · by_cases h3 : c.toNat < 0x10000
      · exact ⟨0xE0 + c.toNat / 0x1000, _, _, by rw [if_neg h1, if_neg h2, if_pos h3], by omega⟩
      · exact ⟨0xF0 + c.toNat / 0x40000, _, _, by rw [if_neg h1, if_neg h2, if_neg h3], by omega⟩

theorem goBytes_cons (c : Char) (cs : List Char) :
    goBytes ⟨c :: cs⟩ = utf8Encode c ++ goBytes ⟨cs⟩ := by
  simp [goBytes]

theorem char_eq_of_toNat (c : Char) (n : Nat) (h : c.toNat = n) : c = Char.ofNat n := by
  rw [← h, Char.ofNat_toNat]

/-- The first two bytes of a string are those of `~/` exactly when its first
two code points are `~` and `/`. -/
theorem take_two_eq_iff (p : String) :
    (goBytes p).take 2 = goBytes ("~" ++ "/") ↔ ∃ r, p.data = '~' :: '/' :: r := by
  have hb : goBytes ("~" ++ "/") = [126, 47] := by decide
  rw [hb]
  obtain ⟨l⟩ := p
  constructor
  · intro h
    cases l with
    | nil => simp [goBytes] at h
    | cons c cs =>
      rw [goBytes_cons] at h
      rcases utf8Encode_cases c with ⟨_, hc⟩ | ⟨b, b1, bs, hc, hb⟩
      · rw [hc] at h
        cases cs with
        | nil => simp [goBytes] at h
        | cons d ds =>
          rw [goBytes_cons] at h
          rcases utf8Encode_cases d with ⟨_, hd⟩ | ⟨b, b1, bs, hd, hb⟩
          · rw [hd] at h
            simp at h
            rw [char_eq_of_toNat c 126 h.1, char_eq_of_toNat d 47 h.2]
            exact ⟨ds, rfl⟩
          · rw [hd] at h
            simp at h
            omega
      · rw [hc] at h
        simp at h
        omega
  · rintro ⟨r, hr⟩
    simp only at hr
    subst hr
    rw [goBytes_cons, goBytes_cons]
    have h1 : utf8Encode '~' = [126] := by decide
    have h2 : utf8Encode '/' = [47] := by decide
    rw [h1, h2]
    rfl

theorem two_le_len_of_cons_cons (c d : Char) (r : List Char) : 2 ≤ len ⟨c :: d :: r⟩ := by
  unfold len
  rw [goBytes_cons, goBytes_cons]
  rcases utf8Encode_cases c with ⟨_, hc⟩ | ⟨b, b1, bs, hc, _⟩ <;>
  rcases utf8Encode_cases d with ⟨_, hd⟩ | ⟨b, b1, bs, hd, _⟩ <;>
  rw [hc, hd] <;> simp

theorem dropTrailing_cons_of_not (p : Char → Bool) (c : Char) (cs : List Char)
    (h : p c = false) : dropTrailing p (c :: cs) = c :: dropTrailing p cs := by
  rw [dropTrailing]
  cases hcs : dropTrailing p cs with
  | nil => simp [h]
  | cons a r => simp

theorem dropTrailing_eq_self (p : Char → Bool) (l : List Char)
    (h : ∀ c, l.getLast? = some c → p c = false) : dropTrailing p l = l := by
  induction l with
  | nil => rfl
  | cons a l ih =>
    cases l with
    | nil =>
      have := h a (by simp)
      simp [dropTrailing, this]
    | cons b l =>
      have ih1 := ih (by
        intro c hc
        apply h c
        rw [List.getLast?_cons_cons]
        exact hc)
      rw [dropTrailing, ih1]

theorem dropTrailing_getLast (p : Char → Bool) (l : List Char) :
    ∀ c, (dropTrailing p l).getLast? = some c → p c = false := by
  induction l with
  | nil => intro c hc; simp [dropTrailing] at hc
  | cons a l ih =>
    intro c hc
    rw [dropTrailing] at hc
    cases hl : dropTrailing p l with
    | nil =>
      rw [hl] at hc
      by_cases ha : p a = true
      · simp [ha] at hc
      · simp [ha] at hc
        subst hc
        simpa using ha
    | cons b r =>
      rw [hl] at hc ih
      simp only at hc
      rw [List.getLast?_cons_cons] at hc
      exact ih c hc

/-! ## Lemmas on `filepath.Clean` -/

theorem le_backtrack (buf : List Char) (dotdot w : Nat) (h : dotdot ≤ w) :
    dotdot ≤ backtrack buf dotdot w := by
  induction w with
  | zero => simpa [backtrack] using h
  | succ w ih =>
    rw [backtrack]
    split
    · rename_i hc
      exact ih (by omega)
    · exact h

theorem head?_take_of_pos (l : List Char) (n : Nat) (h : 1 ≤ n) :
    (l.take n).head? = l.head? := by
  cases l with
  | nil => simp
  | cons a l =>
    cases n with
    | zero => omega
    | succ n => simp

/-- On a rooted path the output of the loop keeps its leading slash. -/
theorem cleanLoop_rooted_head (es : List (List Char)) :
    ∀ buf : List Char, buf.head? = some '/' →
      (cleanLoop true es buf 1).head? = some '/' := by
  induction es with
  | nil => intro buf h; simpa [cleanLoop] using h
  | cons e es ih =>
    intro buf h
    rw [cleanLoop]
    split
    · exact ih buf h
    · split
      · exact ih buf h
      · split
        · split
          · rename_i hlt
            apply ih
            rw [head?_take_of_pos _ _ (le_backtrack _ _ _ (by omega))]
            exact h
          · simp only [Bool.not_true, Bool.false_eq_true, if_false]
            exact ih buf h
        · apply ih
          cases buf with
          | nil => simp at h
          | cons a buf =>
            simp only [List.head?_cons] at h
            split <;> simp [h]

theorem IsAbs_iff (p : String) : IsAbs p = true ↔ ∃ r, p.data = '/' :: r := by
  obtain ⟨l⟩ := p
  cases l with
  | nil => simp [IsAbs, List.isPrefixOf]
  | cons a l =>
    have hs : "/".data = ['/'] := rfl
    unfold IsAbs
    rw [hs]
    simp only [List.isPrefixOf, Bool.and_true, beq_iff_eq]
    constructor
    · intro h
      exact ⟨l, by rw [h]⟩
    · rintro ⟨r, hr⟩
      exact (List.cons.inj hr).1.symm

theorem IsAbs_Clean (p : String) (h : IsAbs p = true) : IsAbs (Clean p) = true := by
  obtain ⟨r, hr⟩ := (IsAbs_iff p).1 h
  have hh := cleanLoop_rooted_head (splitSlash (p.data.drop 1)) ['/'] rfl
  unfold Clean
  rw [if_neg (by rw [hr]; simp)]
  simp only [h, if_true]
  cases hout : cleanLoop true (splitSlash (p.data.drop 1)) ['/'] 1 with
  | nil => rw [hout] at hh; simp at hh
  | cons a out =>
    rw [hout] at hh
    simp only [List.head?_cons, Option.some.injEq] at hh
    subst hh
    simp [IsAbs_iff]

theorem IsAbs_Join (a b : String) (h : IsAbs a = true) : IsAbs (Join a b) = true := by
  obtain ⟨r, hr⟩ := (IsAbs_iff a).1 h
  have ha : a ≠ "" := by
    intro h0
    rw [h0] at hr
    simp at hr
  unfold Join
  rw [if_pos ha]
  apply IsAbs_Clean
  rw [IsAbs_iff]
  exact ⟨r ++ "/".data ++ b.data, by simp [String.data_append, hr]⟩

/-! ## Lemmas on the package functions -/

theorem TrimSpace_eq_self (p : String) (c : Char) (r : List Char) (hp : p.data = c :: r)
    (hc : isSpace c = false) (hlast : ∀ d, p.data.getLast? = some d → isSpace d = false) :
    TrimSpace p = p := by
  obtain ⟨l⟩ := p
  simp only at hp
  subst hp
  unfold TrimSpace
  simp only [List.dropWhile_cons, hc, Bool.false_eq_true, if_false]
  rw [dropTrailing_eq_self _ _ hlast]

theorem TrimSpace_data_of_cons (p : String) (c : Char) (r : List Char) (hp : p.data = c :: r)
    (hc : isSpace c = false) : (TrimSpace p).data = c :: dropTrailing isSpace r := by
  unfold TrimSpace
  simp only [hp, List.dropWhile_cons, hc, Bool.false_eq_true, if_false]
  exact dropTrailing_cons_of_not _ _ _ hc

theorem TrimSpace_TrimSpace_of_cons (p : String) (c : Char) (r : List Char)
    (hp : p.data = c :: r) (hc : isSpace c = false) : TrimSpace (TrimSpace p) = TrimSpace p := by
  have h1 := TrimSpace_data_of_cons p c r hp hc
  apply TrimSpace_eq_self _ c _ h1 hc
  intro d hd
  exact dropTrailing_getLast isSpace _ d hd

theorem expandHome_of_len_lt (v : Vars) (p : String) (h : len p < 2) :
    expandHome v p = .error .sliceOutOfRange := by
  unfold expandHome
  rw [if_pos h]

theorem expandHome_of_not_tilde (v : Vars) (p : String) (h : 2 ≤ len p)
    (hnt : ¬ ∃ r, p.data = '~' :: '/' :: r) : expandHome v p = .ok p := by
  unfold expandHome
  rw [if_neg (by omega), if_neg (fun hh => hnt ((take_two_eq_iff p).1 hh))]

theorem expandHome_of_tilde (v : Vars) (r : List Char) :
    expandHome v ⟨'~' :: '/' :: r⟩ = .ok ⟨v.Home.data ++ '/' :: r⟩ := by
  unfold expandHome
  have h2 := two_le_len_of_cons_cons '~' '/' r
  rw [if_neg (by omega), if_pos ((take_two_eq_iff _).2 ⟨r, rfl⟩)]
  rfl

theorem makeAbsolute_of_abs (sys : Sys) (p : String) (h : IsAbs p = true) :
    makeAbsolute sys p = .ok p := by
  unfold makeAbsolute
  simp [h]

theorem makeAbsolute_of_rel (sys : Sys) (p wd : String) (h : IsAbs p = false)
    (hwd : sys.Getwd = some wd) : makeAbsolute sys p = .ok (Join wd p) := by
  unfold makeAbsolute
  simp [h, hwd]

theorem makeAbsolute_isAbs (sys : Sys) (p q : String)
    (hwd : ∀ wd, sys.Getwd = some wd → IsAbs wd = true)
    (h : makeAbsolute sys p = .ok q) : IsAbs q = true := by
  unfold makeAbsolute at h
  by_cases ha : IsAbs p = true
  · simp [ha] at h
    rw [← h]; exact ha
  · simp [ha] at h
    cases hg : sys.Getwd with
    | none => rw [hg] at h; simp at h
    | some wd =>
      rw [hg] at h
      simp at h
      rw [← h]
      exact IsAbs_Join wd p (hwd wd hg)

theorem expandPath_isAbs (sys : Sys) (v : Vars) (p q : String)
    (hwd : ∀ wd, sys.Getwd = some wd → IsAbs wd = true)
    (h : expandPath sys v p = .ok q) : IsAbs q = true := by
  unfold expandPath at h
  cases he : expandHome v (TrimSpace p) with
  | error e => rw [he] at h; simp at h
  | ok t =>
    rw [he] at h
    exact makeAbsolute_isAbs sys t q hwd h

/-- What `expandPath` returns on an absolute input. -/
theorem expandPath_of_abs (sys : Sys) (v : Vars) (p : String) (h : IsAbs p = true) :
    expandPath sys v p =
      if len (TrimSpace p) < 2 then .error .sliceOutOfRange else .ok (TrimSpace p) := by
  obtain ⟨r, hr⟩ := (IsAbs_iff p).1 h
  have ht := TrimSpace_data_of_cons p '/' r hr (by decide)
  have hta : IsAbs (TrimSpace p) = true := (IsAbs_iff _).2 ⟨_, ht⟩
  unfold expandPath
  by_cases hl : len (TrimSpace p) < 2
  · rw [expandHome_of_len_lt v _ hl, if_pos hl]
  · rw [expandHome_of_not_tilde v _ (by omega) (by
      rintro ⟨r2, hr2⟩
      rw [ht] at hr2
      exact absurd (List.cons.inj hr2).1 (by decide)), if_neg hl]
    exact makeAbsolute_of_abs sys _ hta

/-- What `expandPath` returns on a relative input of at least two bytes that
does not begin with a tilde and a slash. -/
theorem expandPath_of_rel (sys : Sys) (v : Vars) (p wd : String)
    (hwd : sys.Getwd = some wd) (h2 : 2 ≤ len (TrimSpace p))
    (hrel : IsAbs (TrimSpace p) = false)
    (hnt : ¬ ∃ r, (TrimSpace p).data = '~' :: '/' :: r) :
    expandPath sys v p = .ok (Join wd (TrimSpace p)) := by
  unfold expandPath
  rw [expandHome_of_not_tilde v _ h2 hnt]
  exact makeAbsolute_of_rel sys _ wd hrel hwd

theorem findHome_eq (env : Env) :
    findHome env = if homeOfEnv env = "" then .error .errHomeNotFound else .ok (homeOfEnv env) := by
  unfold findHome homeOfEnv
  by_cases hw : env.GOOS = "windows"
  · by_cases hu : env.Getenv "USERPROFILE" = "" <;> simp [hw, hu]
  · simp [hw]

/-! ## The claims -/

/-- C1: on the blank input `Config` returns `Home` joined with the config
filename when `XDGConfigHome` is empty and `XDGConfigHome` joined with it
otherwise, whatever the file system and the working directory are; with
`Home = /home/alice` this is `/home/alice/.exercism.json`, and with
`XDGConfigHome = /home/alice/.config` it is
`/home/alice/.config/.exercism.json`. -/
theorem Config_blank (sys sys2 : Sys) (v : Vars) :
    Config sys v "" =
        .ok (Join (if v.XDGConfigHome = "" then v.Home else v.XDGConfigHome) ".exercism.json") ∧
      Config sys v "" = Config sys2 v "" ∧
      Config sys { Home := "/home/alice", XDGConfigHome := "" } "" =
        .ok "/home/alice/.exercism.json" ∧
      Config sys { Home := "/home/alice", XDGConfigHome := "/home/alice/.config" } "" =
        .ok "/home/alice/.config/.exercism.json" := by
  refine ⟨?_, ?_, rfl, rfl⟩
  · unfold Config
    by_cases h : v.XDGConfigHome = "" <;> simp [h, File]
  · unfold Config
    simp

/-- C2: on a non-blank input `P`, `Config` returns `expandPath P` joined with
the config filename when `IsDir P` holds, and `expandPath P` itself when it
does not; it aborts exactly as `expandPath P` does. -/
theorem Config_nonblank (sys : Sys) (v : Vars) (P : String) (hP : P ≠ "") :
    Config sys v P =
      if IsDir sys P = true then (expandPath sys v P).map (fun e => Join e ".exercism.json")
      else expandPath sys v P := by
  unfold Config
  rw [if_neg hP]
  cases expandPath sys v P with
  | error e => by_cases hd : IsDir sys P = true <;> simp [hd, Except.map]
  | ok e => by_cases hd : IsDir sys P = true <;> simp [hd, Except.map, File]

theorem Config_nonblank_witness :
    "/home/alice/work" ≠ "" ∧ "/home/alice/nofile" ≠ "" ∧
      Config aliceSys aliceVars "/home/alice/work" = .ok "/home/alice/work/.exercism.json" ∧
      Config aliceSys aliceVars "/home/alice/nofile" = .ok "/home/alice/nofile" :=
  ⟨by decide, by decide,
    (Config_nonblank aliceSys aliceVars "/home/alice/work" (by decide)).trans rfl,
    (Config_nonblank aliceSys aliceVars "/home/alice/nofile" (by decide)).trans rfl⟩

/-- C3, evaluated on the machine of alice: `~/work` expands to
`/home/alice/work`, which is an existing directory, and yet `Config` returns
`/home/alice/work` without the config filename, because it asks `IsDir` about
the input as written; the same happens for the directory path surrounded by
blanks. -/
theorem Config_tests_raw_input :
    expandPath aliceSys aliceVars "~/work" = .ok "/home/alice/work" ∧
      IsDir aliceSys "/home/alice/work" = true ∧
      IsDir aliceSys "~/work" = false ∧
      Config aliceSys aliceVars "~/work" = .ok "/home/alice/work" ∧
      expandPath aliceSys aliceVars " /home/alice/work " = .ok "/home/alice/work" ∧
      IsDir aliceSys " /home/alice/work " = false ∧
      Config aliceSys aliceVars " /home/alice/work " = .ok "/home/alice/work" :=
  ⟨rfl, rfl, rfl, rfl, rfl, rfl, rfl⟩

/-- C4, evaluated on the machine of alice, where `Home` is set and the working
directory is known: on the inputs `a`, `/` and a single blank both `Config`
and `Exercises` abort with the slice-bounds panic of `expandHome`. -/
theorem Config_Exercises_abort_on_short_input :
    aliceVars.Home = "/home/alice" ∧ aliceSys.Getwd = some "/tmp" ∧
      Config aliceSys aliceVars "a" = .error .sliceOutOfRange ∧
      Config aliceSys aliceVars "/" = .error .sliceOutOfRange ∧
      Config aliceSys aliceVars " " = .error .sliceOutOfRange ∧
      Exercises aliceSys aliceVars "a" = .error .sliceOutOfRange ∧
      Exercises aliceSys aliceVars "/" = .error .sliceOutOfRange ∧
      Exercises aliceSys aliceVars " " = .error .sliceOutOfRange :=
  ⟨rfl, rfl, rfl, rfl, rfl, rfl, rfl, rfl⟩

/-- C5: `Exercises` on the blank input returns `Home` joined with `exercism`;
on a non-blank input `P` it is `expandPath P`, and two machines with the same
working directory give the same answer whatever their file systems hold. -/
theorem Exercises_spec (sys sys2 : Sys) (v : Vars) (P : String) (hP : P ≠ "")
    (hwd : sys.Getwd = sys2.Getwd) :
    Exercises sys v "" = .ok (Join v.Home "exercism") ∧
      Exercises sys v P = expandPath sys v P ∧
      Exercises sys v P = Exercises sys2 v P := by
  have h1 : ∀ s : Sys, Exercises s v P = expandPath s v P := by
    intro s
    unfold Exercises
    rw [if_neg hP]
  refine ⟨rfl, h1 sys, ?_⟩
  rw [h1, h1]
  unfold expandPath
  cases expandHome v (TrimSpace P) with
  | error e => rfl
  | ok t =>
    simp only
    unfold makeAbsolute
    rw [hwd]

theorem Exercises_spec_witness :
    "/home/alice/work" ≠ "" ∧ aliceSys.Getwd = aliceSysNoWork.Getwd ∧
      IsDir aliceSys "/home/alice/work" = true ∧
      IsDir aliceSysNoWork "/home/alice/work" = false ∧
      Exercises aliceSys aliceVars "" = .ok "/home/alice/exercism" ∧
      Exercises aliceSys aliceVars "/home/alice/work" = .ok "/home/alice/work" ∧
      Exercises aliceSysNoWork aliceVars "/home/alice/work" = .ok "/home/alice/work" :=
  have h := Exercises_spec aliceSys aliceSysNoWork aliceVars "/home/alice/work" (by decide) rfl
  ⟨by decide, rfl, rfl, rfl, h.1.trans rfl, h.2.1.trans rfl, h.2.2.symm.trans (h.2.1.trans rfl)⟩

/-- C6: for an absolute `Home` and a `rest` that does not end in white space,
`expandPath` of `~/` followed by `rest` is `Home`, a slash and `rest`: the
leading tilde is replaced by `Home` and nothing else changes. -/
theorem expandPath_tilde (sys : Sys) (v : Vars) (rest : String)
    (hHome : IsAbs v.Home = true)
    (hrest : ∀ c, rest.data.getLast? = some c → isSpace c = false) :
    expandPath sys v ("~/" ++ rest) = .ok (v.Home ++ "/" ++ rest) := by
  have hd : ("~/" ++ rest).data = '~' :: '/' :: rest.data := by
    rw [String.data_append]; rfl
  have hlast : ∀ d, ("~/" ++ rest).data.getLast? = some d → isSpace d = false := by
    intro d hd2
    rw [hd, List.getLast?_cons_cons] at hd2
    cases hr : rest.data with
    | nil =>
      rw [hr] at hd2
      simp at hd2
      subst hd2
      decide
    | cons a l =>
      rw [hr, List.getLast?_cons_cons] at hd2
      exact hrest d (by rw [hr]; exact hd2)
  have htrim := TrimSpace_eq_self _ '~' _ hd (by decide) hlast
  have hs : ("~/" ++ rest) = ⟨'~' :: '/' :: rest.data⟩ := String.ext hd
  have hres : (⟨v.Home.data ++ '/' :: rest.data⟩ : String) = v.Home ++ "/" ++ rest := by
    apply String.ext
    simp only [String.data_append]
    simp
  unfold expandPath
  rw [htrim, hs, expandHome_of_tilde, hres]
  apply makeAbsolute_of_abs
  obtain ⟨r, hr⟩ := (IsAbs_iff v.Home).1 hHome
  rw [IsAbs_iff]
  exact ⟨r ++ "/".data ++ rest.data, by simp [String.data_append, hr]⟩

theorem expandPath_tilde_witness :
    IsAbs aliceVars.Home = true ∧
      expandPath aliceSys aliceVars ("~/" ++ "foo") = .ok "/home/alice/foo" ∧
      expandPath aliceSys aliceVars ("~/" ++ "a~/b ~") = .ok "/home/alice/a~/b ~" :=
  ⟨rfl,
    (expandPath_tilde aliceSys aliceVars "foo" rfl (by decide)).trans rfl,
    (expandPath_tilde aliceSys aliceVars "a~/b ~" rfl (by decide)).trans rfl⟩

/-- C7, evaluated on the machine of alice: the input `a` is relative and does
not begin with a tilde and a slash, the working directory joined with it is
`/tmp/a`, and yet `expandPath` aborts with the slice-bounds panic of
`expandHome`; so it does on the blank-only input, whose trimmed form is
empty. -/
theorem expandPath_aborts_on_short_relative :
    TrimSpace "a" = "a" ∧ IsAbs "a" = false ∧ Join "/tmp" "a" = "/tmp/a" ∧
      aliceSys.Getwd = some "/tmp" ∧
      expandPath aliceSys aliceVars "a" = .error .sliceOutOfRange ∧
      TrimSpace " " = "" ∧
      expandPath aliceSys aliceVars " " = .error .sliceOutOfRange :=
  ⟨rfl, rfl, rfl, rfl, rfl, rfl, rfl⟩

/-- C8: on an absolute input `P` (which therefore does not start with a
tilde) expanding twice is the same as expanding once, for every `Home` and
working directory: `expandPath P` is the trimmed `P`, on which `expandPath`
returns the same string again, unless the trimmed `P` is the root alone, on
which the first expansion already aborts. -/
theorem expandPath_idempotent (sys : Sys) (v : Vars) (P : String) (hP : IsAbs P = true) :
    (expandPath sys v P).bind (expandPath sys v) = expandPath sys v P ∧
      expandPath sys v P =
        (if len (TrimSpace P) < 2 then .error .sliceOutOfRange else .ok (TrimSpace P)) ∧
      expandPath sys v (TrimSpace P) = expandPath sys v P := by
  obtain ⟨r, hr⟩ := (IsAbs_iff P).1 hP
  have ht := TrimSpace_data_of_cons P '/' r hr (by decide)
  have hta : IsAbs (TrimSpace P) = true := (IsAbs_iff _).2 ⟨_, ht⟩
  have htt : TrimSpace (TrimSpace P) = TrimSpace P :=
    TrimSpace_TrimSpace_of_cons P '/' r hr (by decide)
  have h1 := expandPath_of_abs sys v P hP
  have h2 := expandPath_of_abs sys v (TrimSpace P) hta
  rw [htt] at h2
  refine ⟨?_, h1, h2.trans h1.symm⟩
  by_cases hl : len (TrimSpace P) < 2
  · rw [if_pos hl] at h1
    rw [h1]
    rfl
  · rw [if_neg hl] at h1 h2
    rw [h1]
    exact h2

theorem expandPath_idempotent_witness :
    IsAbs "/home/alice/work dir/  " = true ∧
      expandPath aliceSys aliceVars "/home/alice/work dir/  " = .ok "/home/alice/work dir/" ∧
      expandPath aliceSys aliceVars "/home/alice/work dir/" = .ok "/home/alice/work dir/" :=
  have h := expandPath_idempotent aliceSys aliceVars "/home/alice/work dir/  " rfl
  ⟨rfl, h.2.1.trans rfl, h.2.2.trans (h.2.1.trans rfl)⟩

/-- C9: `Recalculate` keeps a non-empty `Home` whatever the environment says,
sets an empty `Home` to the home directory the environment names, and aborts
exactly when `Home` is empty and the environment names none; whenever it
returns, `Home` is non-empty and `XDGConfigHome` is the value of
`XDG_CONFIG_HOME`, and running it again on the result changes nothing. -/
theorem Recalculate_spec (env : Env) (v : Vars) :
    Recalculate env v =
        (if v.Home ≠ "" then
          .ok { Home := v.Home, XDGConfigHome := env.Getenv "XDG_CONFIG_HOME" }
        else if homeOfEnv env = "" then .error .errHomeNotFound
        else .ok { Home := homeOfEnv env, XDGConfigHome := env.Getenv "XDG_CONFIG_HOME" }) ∧
      ((∃ e, Recalculate env v = .error e) ↔ (v.Home = "" ∧ homeOfEnv env = "")) ∧
      (∀ w, Recalculate env v = .ok w →
        w.Home ≠ "" ∧ w.XDGConfigHome = env.Getenv "XDG_CONFIG_HOME" ∧
          Recalculate env w = .ok w) ∧
      (Recalculate env v).bind (Recalculate env) = Recalculate env v ∧
      Recalculate aliceEnv { Home := "/srv/bob", XDGConfigHome := "/old" } =
        .ok { Home := "/srv/bob", XDGConfigHome := "" } ∧
      Recalculate aliceEnv { Home := "", XDGConfigHome := "/old" } =
        .ok { Home := "/home/alice", XDGConfigHome := "" } ∧
      Recalculate winEnv { Home := "", XDGConfigHome := "" } =
        .ok { Home := "C:\\Users\\alice", XDGConfigHome := "D:\\cfg" } := by
  have hform : Recalculate env v =
      (if v.Home ≠ "" then
        .ok { Home := v.Home, XDGConfigHome := env.Getenv "XDG_CONFIG_HOME" }
      else if homeOfEnv env = "" then .error .errHomeNotFound
      else .ok { Home := homeOfEnv env, XDGConfigHome := env.Getenv "XDG_CONFIG_HOME" }) := by
    unfold Recalculate
    rw [findHome_eq]
    by_cases hh : v.Home = ""
    · by_cases he : homeOfEnv env = "" <;> simp [hh, he]
    · simp [hh]
  have hkeep : ∀ w : Vars, w.Home ≠ "" → w.XDGConfigHome = env.Getenv "XDG_CONFIG_HOME" →
      Recalculate env w = .ok w := by
    intro w h1 h2
    unfold Recalculate
    rw [if_neg h1, ← h2]
  have hret : ∀ w, Recalculate env v = .ok w →
      w.Home ≠ "" ∧ w.XDGConfigHome = env.Getenv "XDG_CONFIG_HOME" ∧
        Recalculate env w = .ok w := by
    intro w hw
    rw [hform] at hw
    by_cases hh : v.Home = ""
    · by_cases he : homeOfEnv env = ""
      · simp [hh, he] at hw
      · simp [hh, he] at hw
        subst hw
        exact ⟨he, rfl, hkeep _ he rfl⟩
    · simp [hh] at hw
      subst hw
      exact ⟨hh, rfl, hkeep _ hh rfl⟩
  refine ⟨hform, ?_, hret, ?_, rfl, rfl, rfl⟩
  · rw [hform]
    by_cases hh : v.Home = ""
    · by_cases he : homeOfEnv env = "" <;> simp [hh, he]
    · simp [hh]
  · cases hr : Recalculate env v with
    | error e => rfl
    | ok w => exact (hret w hr).2.2

/-- C10: when the working directory, if it can be determined, is absolute,
then for every non-blank input `P` on which `expandPath` returns, and every
`Home`, both `Config P` and `Exercises P` return an absolute path. -/
theorem Config_Exercises_absolute (sys : Sys) (v : Vars) (P e : String) (hP : P ≠ "")
    (hwd : ∀ wd, sys.Getwd = some wd → IsAbs wd = true)
    (he : expandPath sys v P = .ok e) :
    (∃ c, Config sys v P = .ok c ∧ IsAbs c = true) ∧
      (∃ x, Exercises sys v P = .ok x ∧ IsAbs x = true) := by
  have hea := expandPath_isAbs sys v P e hwd he
  constructor
  · unfold Config
    rw [if_neg hP, he]
    by_cases hd : IsDir sys P = true
    · exact ⟨_, by simp [hd], IsAbs_Join e File hea⟩
    · exact ⟨e, by simp [hd], hea⟩
  · unfold Exercises
    rw [if_neg hP, he]
    exact ⟨e, rfl, hea⟩

theorem Config_Exercises_absolute_witness :
    "~/../tmp" ≠ "" ∧
      expandPath aliceSys { Home := "rel/home", XDGConfigHome := "" } "~/../tmp" =
        .ok "/tmp/rel/tmp" ∧
      (∃ c, Config aliceSys { Home := "rel/home", XDGConfigHome := "" } "~/../tmp" = .ok c ∧
        IsAbs c = true) ∧
      (∃ x, Exercises aliceSys { Home := "rel/home", XDGConfigHome := "" } "~/../tmp" = .ok x ∧
        IsAbs x = true) :=
  ⟨by decide, rfl,
    Config_Exercises_absolute aliceSys { Home := "rel/home", XDGConfigHome := "" } "~/../tmp"
      "/tmp/rel/tmp" (by decide)
      (by intro wd h; cases h; rfl) rfl⟩

end Paths
